import Mathlib

/-!
Verification development for the drone-runner-aws core: a shallow
embedding of `command/delegate/livelog/livelog.go` (the log stream
writer) and `engine/engine.go` (the instance lifecycle manager and
remote step executor), with theorems settling the specification's
claims about them.
-/

namespace Livelog

/-- Go strings and byte slices are sequences of bytes; one byte. -/
abbrev Byte := Nat

/-- The newline byte, Go's `"\n"`. -/
def nl : Byte := 10

/-- Mirrors `livelog.Line`: sequence number, message bytes, capture
timestamp (abstract monotone clock), severity level. -/
structure Line where
  number : Nat
  message : List Byte
  timestamp : Nat
  level : String
deriving DecidableEq

/-- Mirrors `strings.SplitAfter(s, "\n")`: cut the byte sequence after
every newline byte; the remainder after the last newline (possibly
empty) is the final piece. -/
def splitAfterNL (acc : List Byte) : List Byte → List (List Byte)
  | [] => [acc]
  | c :: rest =>
      if c = nl then (acc ++ [nl]) :: splitAfterNL [] rest
      else splitAfterNL (acc ++ [c]) rest

/-- Mirrors `strings.TrimSuffix(s, "\n")`: remove one trailing newline
byte when present. -/
def trimSuffixNL (s : List Byte) : List Byte :=
  if s.getLast? = some nl then s.dropLast else s

/-- Mirrors `livelog.split`: if the input contains a newline that is not
just the trailing one, split after each newline; otherwise the input is
a single line. -/
def split (p : List Byte) : List (List Byte) :=
  if nl ∈ trimSuffixNL p then splitAfterNL [] p else [p]

/-- Mirrors the mutable fields of `livelog.Writer` relevant to its
sequential behaviour: sequence counter `num`, tracked retained byte
`size`, configured byte `limit`, the pending batch, the history, the
closed flag and an abstract clock feeding record timestamps. -/
structure WriterState where
  num : Nat
  size : Int
  limit : Int
  pending : List Line
  history : List Line
  closed : Bool
  clock : Nat
deriving DecidableEq

/-- Mirrors `livelog.New` followed by `SetLimit`: a fresh writer with
the configured byte limit (5242880 by default). -/
def mkWriter (limit : Int) : WriterState :=
  { num := 0, size := 0, limit := limit,
    pending := [], history := [], closed := false, clock := 0 }

/-- The default 5MB byte limit of `livelog.New`. -/
def defaultLimit : Int := 5242880

/-- Mirrors the eviction loop inside `Writer.Write`:
`for b.size+len(p) > b.limit { b.stop(); b.size -= len(b.history[0].Message); b.history = b.history[1:] }`.
Each iteration marks the writer stopped, drops the oldest history
record and subtracts its message length from the tracked size.
Reading `b.history[0]` with an empty history is a fault (`none`). -/
def evict (pLen : Nat) (limit : Int) : Int → List Line → Bool → Option (Int × List Line × Bool)
  | size, [], closed =>
      if size + (pLen : Int) > limit then none else some (size, [], closed)
  | size, h :: t, closed =>
      if size + (pLen : Int) > limit then
        evict pLen limit (size - h.message.length) t true
      else some (size, h :: t, closed)

/-- One iteration of `Writer.Write`'s per-line loop: build the record
from the current counter and clock, run the eviction loop, add the
line's length to the tracked size, bump the counter, append to the
pending batch only when not stopped, and always append to history. -/
def writeLine (pLen : Nat) (part : List Byte) (st : WriterState) : Option WriterState :=
  let line : Line :=
    { number := st.num, message := part, timestamp := st.clock, level := "info" }
  match evict pLen st.limit st.size st.history st.closed with
  | none => none
  | some (size1, history1, closed1) =>
      some { num := st.num + 1,
             size := size1 + (part.length : Int),
             limit := st.limit,
             pending := if closed1 then st.pending else st.pending ++ [line],
             history := history1 ++ [line],
             closed := closed1,
             clock := st.clock + 1 }

/-- The per-line loop of `Writer.Write` over all pieces of the split
input; `pLen` stays the full input's length throughout. -/
def writeParts (pLen : Nat) : List (List Byte) → WriterState → Option WriterState
  | [], st => some st
  | part :: rest, st =>
      match writeLine pLen part st with
      | none => none
      | some st1 => writeParts pLen rest st1

/-- Mirrors `Writer.Write`: split the input into lines, process each,
and report `(len(p), nil)`. A fault in the eviction loop is `none`. -/
def write (p : List Byte) (st : WriterState) : Option (Nat × WriterState) :=
  match writeParts p.length (split p) st with
  | none => none
  | some st1 => some (p.length, st1)

/-- Calls the writer makes on the log service collaborator. -/
inductive Ev where
  | batch (lines : List Line)
  | upload (lines : List Line)
  | chanClose
deriving DecidableEq

/-- Mirrors `Writer.stop`: set the closed flag once; the result reports
whether this call performed the transition. -/
def stopW (st : WriterState) : Bool × WriterState :=
  if st.closed then (false, st) else (true, { st with closed := true })

/-- Mirrors `Writer.flush`: copy and clear the pending batch; the
collaborator's `Batch` is called only when the batch is nonempty. -/
def flushW (st : WriterState) : WriterState × List Ev :=
  let lines := st.pending
  let st1 := { st with pending := ([] : List Line) }
  if lines = [] then (st1, []) else (st1, [Ev.batch lines])

/-- Mirrors `Writer.Close`: flush only when this call performed the
stop, then always upload the full history and close the remote log
channel. -/
def closeW (st : WriterState) : WriterState × List Ev :=
  let r := stopW st
  let fr := if r.1 then flushW r.2 else (r.2, [])
  (fr.1, fr.2 ++ [Ev.upload fr.1.history, Ev.chanClose])

/-- Operations a client or the background flush task can perform on the
writer; the flush task's interval firing is an interleaved `flush`. -/
inductive LOp where
  | write (p : List Byte)
  | flush
  | close
deriving DecidableEq

/-- One operation against the writer; a faulting `Write` is `none`. -/
def stepOp (st : WriterState) : LOp → Option (WriterState × List Ev)
  | .write p =>
      match write p st with
      | none => none
      | some r => some (r.2, [])
  | .flush => some (flushW st)
  | .close => some (closeW st)

/-- A sequence of operations against the writer, collecting the calls
made on the log service. -/
def runOps (st : WriterState) : List LOp → Option (WriterState × List Ev)
  | [] => some (st, [])
  | op :: rest =>
      match stepOp st op with
      | none => none
      | some (st1, evs1) =>
          match runOps st1 rest with
          | none => none
          | some (st2, evs2) => some (st2, evs1 ++ evs2)

/-- Total message length of a list of records. -/
def linesTotal (ls : List Line) : Nat := (ls.map fun l => l.message.length).sum

/-- Total message length of the pending batch. -/
def pendingTotal (st : WriterState) : Nat := linesTotal st.pending

/-- Total message length of the history. -/
def historyTotal (st : WriterState) : Nat := linesTotal st.history

/-- The records a `Write` call creates for the given pieces, starting
from the given sequence counter and clock. -/
def recsOfParts (num clock : Nat) : List (List Byte) → List Line
  | [] => []
  | part :: rest =>
      { number := num, message := part, timestamp := clock, level := "info" }
        :: recsOfParts (num + 1) (clock + 1) rest

/-- Every record an operation sequence ever creates, starting from the
given sequence counter and clock. -/
def recsOfOps (num clock : Nat) : List LOp → List Line
  | [] => []
  | .write p :: rest =>
      recsOfParts num clock (split p)
        ++ recsOfOps (num + (split p).length) (clock + (split p).length) rest
  | .flush :: rest => recsOfOps num clock rest
  | .close :: rest => recsOfOps num clock rest

/-- Number of `Upload` calls in an event list. -/
def numUploads (evs : List Ev) : Nat :=
  (evs.filter fun e => match e with | .upload _ => true | _ => false).length

/-- Number of `Batch` calls in an event list. -/
def numBatches (evs : List Ev) : Nat :=
  (evs.filter fun e => match e with | .batch _ => true | _ => false).length

/-- Number of remote-channel close calls in an event list. -/
def numChanCloses (evs : List Ev) : Nat :=
  (evs.filter fun e => match e with | .chanClose => true | _ => false).length
end Livelog

namespace Engine

/-- An abstract Go `error` value returned by a collaborator. -/
structure GoErr where
  msg : String
deriving DecidableEq

/-- Mirrors `platform.Instance`: realized machine identity. -/
structure Instance where
  id : String
  ip : String
deriving DecidableEq

/-- A Go tag map `map[string]string`, as a lookup function. -/
def Tags := String → Option String

/-- Assignment `t[k] = v` on a tag map. -/
def tagSet (t : Tags) (k v : String) : Tags :=
  fun q => if q = k then some v else t q

/-- Mirrors `engine.Account`: credentials material of the spec. -/
structure Account where
  accessKeyID : String
  accessKeySecret : String
  region : String

/-- Mirrors the spec's network block: subnet, security groups,
private-IP flag. -/
structure Network where
  subnetID : String
  securityGroups : List String
  privateIP : Bool

/-- Mirrors the spec's device block. -/
structure Device where
  name : String

/-- Mirrors the spec's disk block: type, size, iops. -/
structure Disk where
  ty : String
  size : Int
  iops : Int

/-- Mirrors `engine.Instance` inside the resource spec: pool usage
flag, image, identity once bound, credentials material, type, user
data, tags, network, device and disk configuration. -/
structure InstanceCfg where
  usePool : Bool
  ami : String
  iamProfileARN : String
  user : String
  privateKey : String
  ty : String
  userData : String
  id : String
  ip : String
  tags : Tags
  network : Network
  device : Device
  disk : Disk

/-- Mirrors `engine.File`: a file or directory to stage. -/
structure File where
  path : String
  isDir : Bool
  data : List Nat
  mode : Nat

/-- Mirrors `engine.Volume`'s EmptyDir: an ephemeral volume and its
identifier; the empty string marks an absent identifier. -/
structure Volume where
  emptyDirID : String

/-- Mirrors `engine.Spec`: the resource spec a pipeline binds to. -/
structure Spec where
  account : Account
  poolName : String
  inst : InstanceCfg
  root : String
  files : List File
  volumes : List Volume
  platformOS : String

/-- Mirrors `platform.ProvisionArgs` as built by `Engine.Setup`. -/
structure ProvisionArgs where
  image : String
  iamProfileArn : String
  name : String
  size : String
  region : String
  userdata : String
  tags : Tags
  subnet : String
  groups : List String
  device : String
  privateIP : Bool
  volumeType : String
  volumeSize : Int
  volumeIops : Int

/-- Mirrors `engine.Pool`: a template spec plus target size. The
template is optional because Go's zero `Pool` holds a nil spec. -/
structure PoolCfg where
  template : Option Spec
  size : Nat

/-- Mirrors `engine.Opts`: runner identity and the pool table. -/
structure EngineOpts where
  runnerName : String
  pools : String → Option PoolCfg

/-- Modelled from the spec: `platform.TryPool`'s outcome. Per §4.1,
reservation either fails with an error, finds no free instance (not an
error), or finds one and returns its identity; an error never comes
with a found instance. -/
inductive TryOutcome where
  | errOut (e : GoErr)
  | notFound
  | found (id ip : String)

/-- Outcomes of every collaborator call `Engine.Setup` makes, keyed
where the call is per-path. `createRes` is `platform.Create`'s result;
dial covers `ssh.DialRetry` with its internal backoff exhausted or
satisfied. -/
structure SetupEnv where
  tryPool : TryOutcome
  createRes : Except GoErr Instance
  dialErr : Option GoErr
  sftpErr : Option GoErr
  mkdirErr : String → Option GoErr
  uploadErr : String → Option GoErr
  sessionErr : Option GoErr
  runCmdErr : String → Option GoErr

/-- Calls `Engine.Setup` makes on its collaborators. -/
inductive SEv where
  | tryPoolCall (pool : String)
  | createCall (args : ProvisionArgs)
  | dialCall
  | sftpCall
  | mkdirCall (path : String) (mode : Nat)
  | uploadCall (path : String)
  | sessionCall
  | netCmd (cmd : String)

/-- Run a sequence of collaborator calls, stopping at the first error;
the failing call's event is still recorded. -/
def runCalls : List (SEv × Option GoErr) → Option GoErr × List SEv
  | [] => (none, [])
  | (ev, res) :: rest =>
      match res with
      | some e => (some e, [ev])
      | none =>
          let r := runCalls rest
          (r.1, ev :: r.2)

/-- The container-network command `Setup` runs, with the distinct
Windows-family text. -/
def networkCommandOf (os : String) : String :=
  if os = "windows" then "docker network create --driver nat myNetwork"
  else "docker network create myNetwork"

/-- The bookkeeping tags `Setup` merges into `spec.Instance.Tags`:
runner marker, pool name, creator, and the in-progress status key when
pool-backed. -/
def bookkeepTags (opts : EngineOpts) (spec : Spec) : Tags :=
  let t := tagSet spec.inst.tags "drone" "drone-runner-aws"
  let t := tagSet t "pool" spec.poolName
  let t := tagSet t "creator" opts.runnerName
  if spec.inst.usePool then tagSet t "status" "build in progress" else t

/-- The provisioning arguments `Setup` builds from the spec and the
merged tag map. -/
def provisionArgsOf (spec : Spec) : ProvisionArgs :=
  { image := spec.inst.ami,
    iamProfileArn := spec.inst.iamProfileARN,
    name := spec.inst.user,
    size := spec.inst.ty,
    region := spec.account.region,
    userdata := spec.inst.userData,
    tags := spec.inst.tags,
    subnet := spec.inst.network.subnetID,
    groups := spec.inst.network.securityGroups,
    device := spec.inst.device.name,
    privateIP := spec.inst.network.privateIP,
    volumeType := spec.inst.disk.ty,
    volumeSize := spec.inst.disk.size,
    volumeIops := spec.inst.disk.iops }

/-- Binding a reserved pool instance's identity into the spec. -/
def bindPool (spec : Spec) (pid pip : String) : Spec :=
  { spec with inst := { spec.inst with id := pid, ip := pip } }

/-- The staging and bootstrap sequence after a successful create: dial,
open the file-transfer sub-channel, make the workspace root (mode
0777), make every directory entry of `spec.Files`, upload every
non-directory entry, make a directory per ephemeral volume id, open a
session and run the container-network command. -/
def stagingCalls (env : SetupEnv) (spec : Spec) : List (SEv × Option GoErr) :=
  [(SEv.dialCall, env.dialErr), (SEv.sftpCall, env.sftpErr),
   (SEv.mkdirCall spec.root 511, env.mkdirErr spec.root)]
  ++ ((spec.files.filter fun f => f.isDir).map fun f =>
        (SEv.mkdirCall f.path f.mode, env.mkdirErr f.path))
  ++ ((spec.files.filter fun f => !f.isDir).map fun f =>
        (SEv.uploadCall f.path, env.uploadErr f.path))
  ++ ((spec.volumes.filter fun v => v.emptyDirID != "").map fun v =>
        (SEv.mkdirCall v.emptyDirID 511, env.mkdirErr v.emptyDirID))
  ++ [(SEv.sessionCall, env.sessionErr),
      (SEv.netCmd (networkCommandOf spec.platformOS),
       env.runCmdErr (networkCommandOf spec.platformOS))]

/-- The ad-hoc provisioning tail of `Engine.Setup`: merge bookkeeping
tags into the caller's spec, create the instance (abort on failure),
bind its id/ip, then run the staging sequence. The returned spec is the
caller's spec after `Setup`'s in-place mutations. -/
def adhocSetup (opts : EngineOpts) (env : SetupEnv) (spec : Spec) :
    Option GoErr × Spec × List SEv :=
  let spec1 := { spec with inst := { spec.inst with tags := bookkeepTags opts spec } }
  let args := provisionArgsOf spec1
  match env.createRes with
  | .error e => (some e, spec1, [SEv.createCall args])
  | .ok i =>
      let spec2 := { spec1 with inst := { spec1.inst with id := i.id, ip := i.ip } }
      let r := runCalls (stagingCalls env spec2)
      (r.1, spec2, SEv.createCall args :: r.2)

/-- Mirrors `Engine.Setup`: when pool-backed, try the pool first; a
found instance is bound into the spec and `Setup` returns success with
no provisioning; not-found or a reservation error falls through to
ad-hoc provisioning. -/
def setup (opts : EngineOpts) (env : SetupEnv) (spec : Spec) :
    Option GoErr × Spec × List SEv :=
  if spec.inst.usePool then
    match env.tryPool with
    | .found pid pip => (none, bindPool spec pid pip, [SEv.tryPoolCall spec.poolName])
    | .notFound =>
        let r := adhocSetup opts env spec
        (r.1, r.2.1, SEv.tryPoolCall spec.poolName :: r.2.2)
    | .errOut _ =>
        let r := adhocSetup opts env spec
        (r.1, r.2.1, SEv.tryPoolCall spec.poolName :: r.2.2)
  else adhocSetup opts env spec

/-- Outcomes of the collaborator calls `Engine.Destroy` makes:
`platform.Destroy`, `platform.PoolCountFree` (count and error are
returned together), and the replenishment `Setup`'s overall result. -/
structure DestroyEnv where
  destroyErr : Option GoErr
  countRes : Nat
  countErr : Option GoErr
  setupErr : Option GoErr

/-- Calls `Engine.Destroy` makes on its collaborators; the
replenishment `Setup` is recorded with the template spec it was
given. -/
inductive DEv where
  | destroyCall (i : Instance)
  | countCall (pool : String)
  | setupCall (tmpl : Option Spec)

/-- The pool table's target size for a pool name; a missing entry is
Go's zero `Pool` with size 0. -/
def poolSizeOf (opts : EngineOpts) (name : String) : Nat :=
  ((opts.pools name).map fun p => p.size).getD 0

/-- The pool table's template spec for a pool name; a missing entry is
Go's zero `Pool` with a nil template. -/
def poolTemplateOf (opts : EngineOpts) (name : String) : Option Spec :=
  ((opts.pools name).map fun p => p.template).getD none

/-- Mirrors `Engine.Destroy`: destroy the bound instance (abort and
return on failure); then, when pool-backed, query the free count
(logging any error) and, when it is below the pool's target size,
invoke one replenishment `Setup` with the pool's template spec, whose
failure is logged only; `Destroy` reports success regardless. -/
def destroy (opts : EngineOpts) (env : DestroyEnv) (spec : Spec) :
    Option GoErr × List DEv :=
  let i : Instance := { id := spec.inst.id, ip := spec.inst.ip }
  match env.destroyErr with
  | some e => (some e, [DEv.destroyCall i])
  | none =>
      if spec.inst.usePool then
        if env.countRes < poolSizeOf opts spec.poolName then
          (none, [DEv.destroyCall i, DEv.countCall spec.poolName,
                  DEv.setupCall (poolTemplateOf opts spec.poolName)])
        else (none, [DEv.destroyCall i, DEv.countCall spec.poolName])
      else (none, [DEv.destroyCall i])

/-- Whether a `Destroy` event is a replenishment `Setup` call. -/
def isSetupEv : DEv → Bool
  | .setupCall _ => true
  | _ => false

/-- Number of replenishment `Setup` calls `Destroy` made. -/
def numSetups (evs : List DEv) : Nat := (evs.filter isSetupEv).length

/-- The error `session.Run` reports for the step command: a structured
exit-status error carrying the remote exit code, or any other error. -/
inductive CmdErr where
  | exitStatus (code : Int)
  | generic (msg : String)
deriving DecidableEq

/-- Whether the raced remote command completed or the caller's
cancellation fired first. -/
inductive CmdOutcome where
  | completed (e : Option CmdErr)
  | canceled
deriving DecidableEq

/-- The error `Engine.Run` returns: a collaborator failure before the
command, the command's own error, or the context's cancellation
error. -/
inductive RunError where
  | ssh (e : GoErr)
  | cmd (e : CmdErr)
  | ctx
deriving DecidableEq

/-- Mirrors `runtime.State`: exit code, exited flag, OOM-killed flag. -/
structure RState where
  exitCode : Int
  exited : Bool
  oomKilled : Bool
deriving DecidableEq

/-- The exit-state mapping at the end of `Engine.Run`: start from exit
code 0; any non-nil error maps to 255; a structured exit-status error
overrides with its status. `Exited` is true and `OOMKilled` false in
every completed case. -/
def stateOf (e : Option CmdErr) : RState :=
  let code0 : Int := 0
  let code1 : Int := match e with | none => code0 | some _ => 255
  let code2 : Int := match e with | some (.exitStatus c) => c | _ => code1
  { exitCode := code2, exited := true, oomKilled := false }

/-- Mirrors `engine.Step` (the fields `Run` reads). -/
structure StepSpec where
  command : String
  args : List String
  files : List File

/-- Outcomes of the collaborator calls `Engine.Run` makes: dial (no
retry), the file-transfer sub-channel, the per-file staged upload, the
session, and the raced command. -/
structure RunEnv where
  dialErr : Option GoErr
  sftpErr : Option GoErr
  uploadErr : String → Option GoErr
  sessionErr : Option GoErr
  outcome : CmdOutcome

/-- The first failure among the staged-file uploads of `Run`. -/
def firstFileErr (env : RunEnv) : List File → Option GoErr
  | [] => none
  | f :: rest =>
      match env.uploadErr f.path with
      | some e => some e
      | none => firstFileErr env rest

/-- The command line `Run` builds: the command followed by the
space-joined arguments. -/
def cmdLineOf (step : StepSpec) : String :=
  step.command ++ " " ++ String.intercalate " " step.args

/-- Mirrors `Engine.Run`: dial, open the file-transfer sub-channel,
stage each step file (first failure aborts with a nil state), open a
session, then race the command against cancellation. Cancellation
returns a nil state with the context error; completion returns the
mapped exit state together with the command's own error. -/
def runM (env : RunEnv) (step : StepSpec) : Option RState × Option RunError :=
  match env.dialErr with
  | some e => (none, some (.ssh e))
  | none =>
  match env.sftpErr with
  | some e => (none, some (.ssh e))
  | none =>
  match firstFileErr env step.files with
  | some e => (none, some (.ssh e))
  | none =>
  match env.sessionErr with
  | some e => (none, some (.ssh e))
  | none =>
  match env.outcome with
  | .canceled => (none, some .ctx)
  | .completed e => (some (stateOf e), e.map RunError.cmd)

end Engine

namespace Livelog

/-- Modelled from the claim's words (C2): the per-line loop in which
each line's eviction loop compares the tracked size plus that incoming
line's own length against the limit — for comparison with the source's
`writeParts`, whose eviction loop uses the entire input block's
length. -/
def writePartsLineCond : List (List Byte) → WriterState → Option WriterState
  | [], st => some st
  | part :: rest, st =>
      match writeLine part.length part st with
      | none => none
      | some st1 => writePartsLineCond rest st1

/-- Modelled from the claim's words (C2): `Write` with the per-line
eviction condition of `writePartsLineCond`. -/
def writeLineCond (p : List Byte) (st : WriterState) : Option (Nat × WriterState) :=
  match writePartsLineCond (split p) st with
  | none => none
  | some st1 => some (p.length, st1)

end Livelog

/-- C1 counterexample: with byte limit 3, writing "ab" then "cd" and
closing, the record "ab" (sequence number 0) was written, yet eviction
removed it from the history itself and Close's upload carries only the
record "cd" — the full history does not retain every record ever
written, and the upload misses an evicted record. -/
theorem close_upload_misses_evicted_cex :
    Livelog.runOps (Livelog.mkWriter 3)
        [.write [97, 98], .write [99, 100], .close] =
      some ({ num := 2, size := 2, limit := 3,
              pending := [⟨0, [97, 98], 0, "info"⟩],
              history := [⟨1, [99, 100], 1, "info"⟩],
              closed := true, clock := 2 },
            [Livelog.Ev.upload [⟨1, [99, 100], 1, "info"⟩], Livelog.Ev.chanClose]) ∧
    (⟨0, [97, 98], 0, "info"⟩ : Livelog.Line) ∈
      Livelog.recsOfOps 0 0 [.write [97, 98], .write [99, 100], .close] ∧
    (⟨0, [97, 98], 0, "info"⟩ : Livelog.Line) ∉
      [(⟨1, [99, 100], 1, "info"⟩ : Livelog.Line)] := by decide

/-- C2 counterexample: with byte limit 5, after writing "abc" and then
the two-line block "d\ne\n", the source's eviction loop (which compares
against the entire block's length) leaves only the final empty record
in history, while the loop the claim describes (comparing against each
line's own length) would leave all three records of the second write —
the claimed loop condition does not match the code. -/
theorem evict_uses_block_length_cex :
    (Livelog.runOps (Livelog.mkWriter 5)
        [.write [97, 98, 99], .write [100, 10, 101, 10]]).map
        (fun r => r.1.history.map Livelog.Line.message) = some [[]] ∧
    ((Livelog.writeLineCond [97, 98, 99] (Livelog.mkWriter 5)).bind
        (fun r => Livelog.writeLineCond [100, 10, 101, 10] r.2)).map
        (fun r => r.2.history.map Livelog.Line.message) =
      some [[100, 10], [101, 10], []] ∧
    (some [[]] : Option (List (List Livelog.Byte))) ≠
      some [[100, 10], [101, 10], []] := by decide

/-- C3 counterexample: writing "ok" and closing twice performs the
upload and the remote-channel close twice (and the flush once) — the
second Close is not a no-op. -/
theorem close_twice_uploads_twice_cex :
    (Livelog.runOps (Livelog.mkWriter 5)
        [.write [111, 107], .close, .close]).map
        (fun r => (Livelog.numUploads r.2, Livelog.numChanCloses r.2,
                   Livelog.numBatches r.2)) =
      some (2, 2, 1) := by decide

/-- C8 counterexample: writing the block "x\ny\n", which contains two
line breaks, produces three records, not two: the two lines (with their
trailing line-feeds) and a final record with an empty message. -/
theorem write_two_breaks_three_records_cex :
    (Livelog.write [120, 10, 121, 10] (Livelog.mkWriter 100)).map
        (fun r => r.2.history.map fun l => (l.number, l.message)) =
      some [(0, [120, 10]), (1, [121, 10]), (2, [])] := by decide

/-- C9: a first Write whose length (5 bytes) exceeds the configured
limit (4) faults: the eviction loop drains the empty history and then
reads `b.history[0]`, an index out of range — Write does not return
`(len(p), nil)`. -/
theorem write_oversized_first_write_faults :
    Livelog.write [104, 101, 108, 108, 111] (Livelog.mkWriter 4) = none := by decide

/-- Fields of the writer state that `closeW` leaves unchanged, and the
exact shape of its upload events: every Close call uploads the full
history as it stands and closes the remote channel. -/
theorem closeW_fields (st : Livelog.WriterState) :
    ((Livelog.closeW st).1).history = st.history ∧
    ((Livelog.closeW st).1).num = st.num ∧
    ((Livelog.closeW st).1).clock = st.clock ∧
    ((Livelog.closeW st).1).closed = true ∧
    Livelog.Ev.upload st.history ∈ (Livelog.closeW st).2 ∧
    (∀ ls, Livelog.Ev.upload ls ∈ (Livelog.closeW st).2 → ls = st.history) := by
  by_cases hc : st.closed
  · simp [Livelog.closeW, Livelog.stopW, hc]
  · by_cases hp : st.pending = []
    · simp [Livelog.closeW, Livelog.stopW, Livelog.flushW, hc, hp]
    · simp [Livelog.closeW, Livelog.stopW, Livelog.flushW, hc, hp]

/-- A Close on an already-closed writer skips the flush and still
uploads the history and closes the remote channel. -/
theorem closeW_closed {st : Livelog.WriterState} (hc : st.closed = true) :
    Livelog.closeW st = (st, [Livelog.Ev.upload st.history, Livelog.Ev.chanClose]) := by
  simp [Livelog.closeW, Livelog.stopW, hc]

/-- C3 amended: Close is not idempotent. The flush is guarded by the
first stop, but every Close call uploads the full history and closes
the remote channel: a second Close performs the upload and the channel
close again (with no flush), on the unchanged history. -/
theorem close_second_call_repeats_upload (st : Livelog.WriterState) :
    ((Livelog.closeW st).1).history = st.history ∧
    Livelog.Ev.upload st.history ∈ (Livelog.closeW st).2 ∧
    (Livelog.closeW ((Livelog.closeW st).1)).2 =
      [Livelog.Ev.upload st.history, Livelog.Ev.chanClose] ∧
    Livelog.numBatches (Livelog.closeW ((Livelog.closeW st).1)).2 = 0 := by
  obtain ⟨h1, _, _, h4, h5, _⟩ := closeW_fields st
  refine ⟨h1, h5, ?_, ?_⟩
  · rw [closeW_closed h4, h1]
  · rw [closeW_closed h4]
    simp [Livelog.numBatches]

namespace Engine

/-- A concrete step with no staged files. -/
def step0 : StepSpec := { command := "echo", args := ["hi"], files := [] }

/-- A run in which every collaborator call succeeds and the remote
command completes with a structured exit-status error carrying 17. -/
def envExit17 : RunEnv :=
  { dialErr := none, sftpErr := none, uploadErr := fun _ => none,
    sessionErr := none, outcome := .completed (some (.exitStatus 17)) }

/-- A run in which every collaborator call succeeds and the remote
command completes without error. -/
def envOk : RunEnv :=
  { dialErr := none, sftpErr := none, uploadErr := fun _ => none,
    sessionErr := none, outcome := .completed none }

end Engine

/-- C4 counterexample: when the remote command completes with a
structured exit-status error (code 17), Run does capture 17 in
State.exitCode, but it does not report success: the returned error is
non-nil. -/
theorem run_completed_error_not_nil_cex :
    (Engine.runM Engine.envExit17 Engine.step0).1 = some ⟨17, true, false⟩ ∧
    (Engine.runM Engine.envExit17 Engine.step0).2 ≠ none := by decide

/-- C4 amended: when the remote command completes with a CommandError,
Run returns the completed State capturing the outcome in State.exitCode
together with the underlying command error — the non-nil State, not a
nil error, marks completion. -/
theorem run_returns_state_with_command_error (env : Engine.RunEnv)
    (step : Engine.StepSpec)
    (hd : env.dialErr = none) (hs : env.sftpErr = none)
    (hf : Engine.firstFileErr env step.files = none) (hss : env.sessionErr = none)
    (ce : Engine.CmdErr) (ho : env.outcome = .completed (some ce)) :
    Engine.runM env step =
      (some (Engine.stateOf (some ce)), some (.cmd ce)) := by
  simp [Engine.runM, hd, hs, hf, hss, ho]

/-- Witness for the amended C4 at a concrete run. -/
theorem run_returns_state_with_command_error_witness :
    Engine.runM Engine.envExit17 Engine.step0 =
      (some ⟨17, true, false⟩, some (.cmd (.exitStatus 17))) :=
  run_returns_state_with_command_error Engine.envExit17 Engine.step0
    rfl rfl rfl rfl (.exitStatus 17) rfl

/-- C5: for every Run whose remote command completes, the returned
state is the mapped exit state and the returned error is the command's
own error; the mapping sends a nil error to exit code 0, a structured
exit-status error carrying 17 to 17, and any other non-nil error to
255, with Exited true and OOMKilled false in every completed case. -/
theorem run_exit_mapping (env : Engine.RunEnv) (step : Engine.StepSpec)
    (hd : env.dialErr = none) (hs : env.sftpErr = none)
    (hf : Engine.firstFileErr env step.files = none) (hss : env.sessionErr = none)
    (e : Option Engine.CmdErr) (ho : env.outcome = .completed e) :
    Engine.runM env step = (some (Engine.stateOf e), e.map Engine.RunError.cmd) ∧
    Engine.stateOf none = ⟨0, true, false⟩ ∧
    Engine.stateOf (some (.exitStatus 17)) = ⟨17, true, false⟩ ∧
    (∀ s, Engine.stateOf (some (.generic s)) = ⟨255, true, false⟩) ∧
    (Engine.stateOf e).exited = true ∧ (Engine.stateOf e).oomKilled = false := by
  refine ⟨by simp [Engine.runM, hd, hs, hf, hss, ho], rfl, rfl, fun s => rfl, rfl, rfl⟩

/-- Witness for C5 at a concrete completed run with a nil command
error. -/
theorem run_exit_mapping_witness :
    Engine.runM Engine.envOk Engine.step0 = (some ⟨0, true, false⟩, none) ∧
    Engine.stateOf (some (.exitStatus 17)) = ⟨17, true, false⟩ :=
  ⟨(run_exit_mapping Engine.envOk Engine.step0 rfl rfl rfl rfl none rfl).1,
   (run_exit_mapping Engine.envOk Engine.step0 rfl rfl rfl rfl none rfl).2.2.1⟩

/-- The ad-hoc provisioning tail always attempts Create first: its
event list starts with a `createCall`. -/
theorem adhoc_head (opts : Engine.EngineOpts) (env : Engine.SetupEnv)
    (spec : Engine.Spec) :
    ∃ args rest, (Engine.adhocSetup opts env spec).2.2 =
      Engine.SEv.createCall args :: rest := by
  unfold Engine.adhocSetup
  cases env.createRes with
  | error e => exact ⟨_, _, rfl⟩
  | ok i => exact ⟨_, _, rfl⟩

/-- C6: for a pool-backed Setup, a found reservation binds the returned
id/ip into the spec and returns success with only the reservation call
made — Create is never invoked; on not-found or a reservation error
Setup falls through to ad-hoc provisioning (Create is attempted) rather
than aborting. -/
theorem setup_pool_reserve (opts : Engine.EngineOpts) (env : Engine.SetupEnv)
    (spec : Engine.Spec) (hp : spec.inst.usePool = true) :
    (∀ pid pip, env.tryPool = .found pid pip →
        Engine.setup opts env spec =
          (none, Engine.bindPool spec pid pip,
            [Engine.SEv.tryPoolCall spec.poolName]) ∧
        ∀ args, Engine.SEv.createCall args ∉ (Engine.setup opts env spec).2.2) ∧
    ((env.tryPool = Engine.TryOutcome.notFound ∨
        ∃ e, env.tryPool = Engine.TryOutcome.errOut e) →
      Engine.setup opts env spec =
        ((Engine.adhocSetup opts env spec).1, (Engine.adhocSetup opts env spec).2.1,
          Engine.SEv.tryPoolCall spec.poolName ::
            (Engine.adhocSetup opts env spec).2.2) ∧
      ∃ args rest,
        (Engine.adhocSetup opts env spec).2.2 =
          Engine.SEv.createCall args :: rest) := by
  constructor
  · intro pid pip hf
    constructor
    · simp [Engine.setup, hp, hf]
    · intro args
      simp [Engine.setup, hp, hf]
  · intro hmiss
    have hset : Engine.setup opts env spec =
        ((Engine.adhocSetup opts env spec).1, (Engine.adhocSetup opts env spec).2.1,
          Engine.SEv.tryPoolCall spec.poolName ::
            (Engine.adhocSetup opts env spec).2.2) := by
      rcases hmiss with hnf | ⟨e, he⟩
      · simp [Engine.setup, hp, hnf]
      · simp [Engine.setup, hp, he]
    exact ⟨hset, adhoc_head opts env spec⟩

namespace Engine

/-- A concrete account. -/
def acct0 : Account :=
  { accessKeyID := "AK", accessKeySecret := "SK", region := "us-east-1" }

/-- A concrete instance configuration with one pre-existing tag. -/
def instCfg0 (usePool : Bool) : InstanceCfg :=
  { usePool := usePool, ami := "ami-1", iamProfileARN := "", user := "ubuntu",
    privateKey := "key", ty := "t2.micro", userData := "", id := "i-old",
    ip := "10.0.0.1",
    tags := fun k => if k = "team" then some "ci" else none,
    network := { subnetID := "sn-1", securityGroups := ["sg-1"], privateIP := false },
    device := { name := "/dev/sda1" },
    disk := { ty := "gp2", size := 30, iops := 0 } }

/-- A concrete pool-backed resource spec. -/
def specPool : Spec :=
  { account := acct0, poolName := "p1", inst := instCfg0 true, root := "/drone",
    files := [], volumes := [], platformOS := "linux" }

/-- A concrete ad-hoc (non-pool) resource spec. -/
def specAdhoc : Spec := { specPool with inst := instCfg0 false }

/-- Engine options with an empty pool table. -/
def opts0 : EngineOpts := { runnerName := "runner-1", pools := fun _ => none }

/-- A Setup environment whose reservation finds a free instance. -/
def envFound : SetupEnv :=
  { tryPool := .found "i-9" "10.9.9.9", createRes := .ok ⟨"i-new", "10.0.0.2"⟩,
    dialErr := none, sftpErr := none, mkdirErr := fun _ => none,
    uploadErr := fun _ => none, sessionErr := none, runCmdErr := fun _ => none }

end Engine

/-- Witness for C6 at a concrete pool-backed Setup with a found
reservation. -/
theorem setup_pool_reserve_witness :
    Engine.setup Engine.opts0 Engine.envFound Engine.specPool =
      (none, Engine.bindPool Engine.specPool "i-9" "10.9.9.9",
        [Engine.SEv.tryPoolCall "p1"]) :=
  ((setup_pool_reserve Engine.opts0 Engine.envFound Engine.specPool rfl).1
    "i-9" "10.9.9.9" rfl).1

/-- C7: Destroy returns an error exactly when the provisioning destroy
call fails, and then makes no further call; once the destroy succeeds,
Destroy returns success whatever the free-count query or the
replenishment Setup return, and exactly one replenishment Setup — with
the pool's template spec — is triggered precisely when the instance was
pool-backed and the free count is below the pool's target size. -/
theorem destroy_replenish (opts : Engine.EngineOpts) (env : Engine.DestroyEnv)
    (spec : Engine.Spec) :
    (∀ e, env.destroyErr = some e →
        Engine.destroy opts env spec =
          (some e, [Engine.DEv.destroyCall ⟨spec.inst.id, spec.inst.ip⟩])) ∧
    (env.destroyErr = none →
        (Engine.destroy opts env spec).1 = none ∧
        Engine.numSetups (Engine.destroy opts env spec).2 =
          (if spec.inst.usePool = true ∧
              env.countRes < Engine.poolSizeOf opts spec.poolName
           then 1 else 0) ∧
        (∀ t, Engine.DEv.setupCall t ∈ (Engine.destroy opts env spec).2 →
            t = Engine.poolTemplateOf opts spec.poolName)) := by
  constructor
  · intro e he
    simp [Engine.destroy, he]
  · intro hn
    by_cases hp : spec.inst.usePool = true
    · by_cases hlt : env.countRes < Engine.poolSizeOf opts spec.poolName
      · refine ⟨?_, ?_, ?_⟩ <;>
          simp [Engine.destroy, hn, hp, hlt, Engine.numSetups, Engine.isSetupEv]
      · refine ⟨?_, ?_, ?_⟩ <;>
          simp [Engine.destroy, hn, hp, hlt, Engine.numSetups, Engine.isSetupEv]
    · have hp' : spec.inst.usePool = false := by
        cases h : spec.inst.usePool
        · rfl
        · exact absurd h hp
      refine ⟨?_, ?_, ?_⟩ <;>
        simp [Engine.destroy, hn, hp', Engine.numSetups, Engine.isSetupEv]

namespace Engine

/-- A pool entry with template `specAdhoc` and target size 3. -/
def poolCfg0 : PoolCfg := { template := some specAdhoc, size := 3 }

/-- Engine options with pool "p1" configured. -/
def optsPool : EngineOpts :=
  { runnerName := "runner-1",
    pools := fun n => if n = "p1" then some poolCfg0 else none }

/-- A Destroy environment: the destroy call succeeds while both the
free-count query and the replenishment Setup fail; one free instance
remains, below the target size of 3. -/
def denv0 : DestroyEnv :=
  { destroyErr := none, countRes := 1, countErr := some ⟨"count failed"⟩,
    setupErr := some ⟨"replenish failed"⟩ }

end Engine

/-- Witness for C7: a pool-backed Destroy whose count query and
replenishment both fail still returns success and triggers exactly one
replenishment Setup. -/
theorem destroy_replenish_witness :
    (Engine.destroy Engine.optsPool Engine.denv0 Engine.specPool).1 = none ∧
    Engine.numSetups (Engine.destroy Engine.optsPool Engine.denv0 Engine.specPool).2 = 1 := by
  have h := (destroy_replenish Engine.optsPool Engine.denv0 Engine.specPool).2 rfl
  refine ⟨h.1, ?_⟩
  rw [h.2.1]
  decide

namespace Engine

/-- The caller's spec as it stands after `Setup` returns (Setup mutates
the spec in place). -/
def setupSpecOut (opts : EngineOpts) (env : SetupEnv) (spec : Spec) : Spec :=
  (setup opts env spec).2.1

end Engine

/-- A Setup that falls through to ad-hoc provisioning returns the
ad-hoc path's result and spec. -/
theorem setup_fallthrough (opts : Engine.EngineOpts) (env : Engine.SetupEnv)
    (spec : Engine.Spec)
    (h : spec.inst.usePool = false ∨ env.tryPool = Engine.TryOutcome.notFound ∨
          ∃ e, env.tryPool = Engine.TryOutcome.errOut e) :
    (Engine.setup opts env spec).1 = (Engine.adhocSetup opts env spec).1 ∧
    Engine.setupSpecOut opts env spec = (Engine.adhocSetup opts env spec).2.1 := by
  rcases h with h | h | ⟨e, h⟩
  · constructor <;> simp [Engine.setup, Engine.setupSpecOut, h]
  · cases hp : spec.inst.usePool <;>
      constructor <;> simp [Engine.setup, Engine.setupSpecOut, hp, h]
  · cases hp : spec.inst.usePool <;>
      constructor <;> simp [Engine.setup, Engine.setupSpecOut, hp, h]

/-- C10: a Setup that falls through to ad-hoc provisioning mutates the
caller's spec only in the instance tags — merging the runner marker,
pool name, creator, and (when pool-backed) the in-progress status key,
leaving every entry under other keys unchanged — and, once Create has
succeeded, in the instance id and ip; the tag mutation persists even
when Setup returns an error. -/
theorem setup_adhoc_frame (opts : Engine.EngineOpts) (env : Engine.SetupEnv)
    (spec : Engine.Spec)
    (h : spec.inst.usePool = false ∨ env.tryPool = Engine.TryOutcome.notFound ∨
          ∃ e, env.tryPool = Engine.TryOutcome.errOut e) :
    (∃ i' p', Engine.setupSpecOut opts env spec =
        { spec with inst := { spec.inst with tags := Engine.bookkeepTags opts spec,
                                             id := i', ip := p' } }) ∧
    (∀ k, k ≠ "drone" → k ≠ "pool" → k ≠ "creator" → k ≠ "status" →
        Engine.bookkeepTags opts spec k = spec.inst.tags k) ∧
    (spec.inst.usePool = false →
        Engine.bookkeepTags opts spec "status" = spec.inst.tags "status") ∧
    Engine.bookkeepTags opts spec "drone" = some "drone-runner-aws" ∧
    Engine.bookkeepTags opts spec "pool" = some spec.poolName ∧
    Engine.bookkeepTags opts spec "creator" = some opts.runnerName ∧
    (spec.inst.usePool = true →
        Engine.bookkeepTags opts spec "status" = some "build in progress") ∧
    (∀ e, env.createRes = .error e →
        (Engine.setup opts env spec).1 = some e ∧
        Engine.setupSpecOut opts env spec =
          { spec with inst := { spec.inst with
                                  tags := Engine.bookkeepTags opts spec } }) ∧
    (∀ i, env.createRes = .ok i →
        (Engine.setupSpecOut opts env spec).inst.id = i.id ∧
        (Engine.setupSpecOut opts env spec).inst.ip = i.ip) := by
  obtain ⟨hres, hout⟩ := setup_fallthrough opts env spec h
  refine ⟨?_, ?_, ?_, ?_, ?_, ?_, ?_, ?_, ?_⟩
  · rw [hout]
    cases hc : env.createRes with
    | error e =>
        exact ⟨spec.inst.id, spec.inst.ip, by simp [Engine.adhocSetup, hc]⟩
    | ok i =>
        exact ⟨i.id, i.ip, by simp [Engine.adhocSetup, hc]⟩
  · intro k h1 h2 h3 h4
    cases hp : spec.inst.usePool <;>
      simp [Engine.bookkeepTags, Engine.tagSet, hp, h1, h2, h3, h4]
  · intro hp
    simp [Engine.bookkeepTags, Engine.tagSet, hp]
  · cases hp : spec.inst.usePool <;> simp [Engine.bookkeepTags, Engine.tagSet, hp]
  · cases hp : spec.inst.usePool <;> simp [Engine.bookkeepTags, Engine.tagSet, hp]
  · cases hp : spec.inst.usePool <;> simp [Engine.bookkeepTags, Engine.tagSet, hp]
  · intro hp
    simp [Engine.bookkeepTags, Engine.tagSet, hp]
  · intro e hc
    rw [hres, hout]
    constructor <;> simp [Engine.adhocSetup, hc]
  · intro i hc
    rw [hout]
    constructor <;> simp [Engine.adhocSetup, hc]

/-- Witness for C10 at a concrete ad-hoc Setup: the pre-existing "team"
tag survives, the runner marker is added, and the created instance's id
is bound into the spec. -/
theorem setup_adhoc_frame_witness :
    Engine.bookkeepTags Engine.opts0 Engine.specAdhoc "team" =
      Engine.specAdhoc.inst.tags "team" ∧
    Engine.bookkeepTags Engine.opts0 Engine.specAdhoc "drone" =
      some "drone-runner-aws" ∧
    (Engine.setupSpecOut Engine.opts0 Engine.envFound Engine.specAdhoc).inst.id =
      "i-new" := by
  have h := setup_adhoc_frame Engine.opts0 Engine.envFound Engine.specAdhoc (Or.inl rfl)
  exact ⟨h.2.1 "team" (by decide) (by decide) (by decide) (by decide),
         h.2.2.2.1,
         (h.2.2.2.2.2.2.2.2 ⟨"i-new", "10.0.0.2"⟩ rfl).1⟩

namespace Livelog

/-- Total message length of no records. -/
theorem linesTotal_nil : linesTotal ([] : List Line) = 0 := rfl

/-- Total message length distributes over cons. -/
theorem linesTotal_cons (l : Line) (ls : List Line) :
    linesTotal (l :: ls) = l.message.length + linesTotal ls := by
  simp [linesTotal]

/-- Total message length distributes over append. -/
theorem linesTotal_append (a b : List Line) :
    linesTotal (a ++ b) = linesTotal a + linesTotal b := by
  simp [linesTotal]

/-- Appending the same list on the right preserves the suffix
relation. -/
theorem suffix_append_same {α : Type} {a b : List α} (r : List α)
    (h : a <:+ b) : a ++ r <:+ b ++ r := by
  obtain ⟨x, rfl⟩ := h
  exact ⟨x, (List.append_assoc x a r).symm⟩

/-- What a returning eviction loop guarantees: the final size plus the
input block's length fits the limit; the surviving history is a suffix
of the old one; a still-unset stopped flag means the loop never ran;
and the size bookkeeping tracks the history total. -/
theorem evict_spec (pLen : Nat) (L : Int) :
    ∀ (hist : List Line) (s : Int) (c : Bool) (s' : Int) (h' : List Line)
      (c' : Bool), evict pLen L s hist c = some (s', h', c') →
      s' + (pLen : Int) ≤ L ∧ h' <:+ hist ∧
      (c' = false → s' = s ∧ h' = hist ∧ c = false) ∧
      (s = (linesTotal hist : Int) → s' = (linesTotal h' : Int)) := by
  intro hist
  induction hist with
  | nil =>
      intro s c s' h' c' he
      by_cases hc : s + (pLen : Int) > L
      · simp [evict, hc] at he
      · simp [evict, hc] at he
        obtain ⟨rfl, rfl, rfl⟩ := he
        exact ⟨by omega, List.suffix_refl _, fun hcf => ⟨rfl, rfl, hcf⟩, fun hs => hs⟩
  | cons l t ih =>
      intro s c s' h' c' he
      by_cases hc : s + (pLen : Int) > L
      · simp only [evict, if_pos hc] at he
        obtain ⟨h1, h2, h3, h4⟩ :=
          ih (s - (l.message.length : Int)) true s' h' c' he
        refine ⟨h1, h2.trans (List.suffix_cons l t), ?_, ?_⟩
        · intro hcf
          obtain ⟨_, _, hft⟩ := h3 hcf
          cases hft
        · intro hs
          apply h4
          rw [linesTotal_cons] at hs
          push_cast at hs ⊢
          omega
      · simp [evict, hc] at he
        obtain ⟨rfl, rfl, rfl⟩ := he
        exact ⟨by omega, List.suffix_refl _, fun hcf => ⟨rfl, rfl, hcf⟩, fun hs => hs⟩

end Livelog

namespace Livelog

/-- The exact state a returning `writeLine` produces, given the
eviction loop's result. -/
theorem writeLine_eq {pLen : Nat} (part : List Byte) {st : WriterState}
    {s1 : Int} {h1 : List Line} {c1 : Bool}
    (he : evict pLen st.limit st.size st.history st.closed = some (s1, h1, c1)) :
    writeLine pLen part st =
      some { num := st.num + 1, size := s1 + (part.length : Int),
             limit := st.limit,
             pending := if c1 then st.pending
                        else st.pending ++ [⟨st.num, part, st.clock, "info"⟩],
             history := h1 ++ [⟨st.num, part, st.clock, "info"⟩],
             closed := c1, clock := st.clock + 1 } := by
  unfold writeLine
  rw [he]

/-- A faulting eviction loop means a faulting `writeLine`. -/
theorem writeLine_none {pLen : Nat} (part : List Byte) {st : WriterState}
    (he : evict pLen st.limit st.size st.history st.closed = none) :
    writeLine pLen part st = none := by
  unfold writeLine
  rw [he]

/-- Through the per-line loop, the history stays a suffix of the old
history followed by the records this write creates, and the counter and
clock advance by the number of pieces. -/
theorem writeParts_history (pLen : Nat) :
    ∀ (parts : List (List Byte)) (st st' : WriterState),
      writeParts pLen parts st = some st' →
      st'.history <:+ st.history ++ recsOfParts st.num st.clock parts ∧
      st'.num = st.num + parts.length ∧
      st'.clock = st.clock + parts.length := by
  intro parts
  induction parts with
  | nil =>
      intro st st' h
      simp [writeParts] at h
      subst h
      simp [recsOfParts]
  | cons part rest ih =>
      intro st st' h
      simp only [writeParts] at h
      cases he : evict pLen st.limit st.size st.history st.closed with
      | none => rw [writeLine_none part he] at h; cases h
      | some r =>
          obtain ⟨s1, h1, c1⟩ := r
          rw [writeLine_eq part he] at h
          obtain ⟨hsuf, hnum, hclock⟩ := ih _ st' h
          obtain ⟨_, hsufe, _, _⟩ := evict_spec pLen st.limit st.history
            st.size st.closed s1 h1 c1 he
          have hnum' : st'.num = st.num + 1 + rest.length := by simpa using hnum
          have hclock' : st'.clock = st.clock + 1 + rest.length := by
            simpa using hclock
          refine ⟨?_, by rw [hnum', List.length_cons]; omega,
            by rw [hclock', List.length_cons]; omega⟩
          simp only [recsOfParts]
          have h2 : h1 ++ [(⟨st.num, part, st.clock, "info"⟩ : Line)] <:+
              st.history ++ [⟨st.num, part, st.clock, "info"⟩] :=
            suffix_append_same _ hsufe
          have h3 := suffix_append_same
            (recsOfParts (st.num + 1) (st.clock + 1) rest) h2
          have h4 := hsuf.trans h3
          simpa [List.append_assoc] using h4

/-- Through a whole `Write`, the history stays a suffix of the old
history followed by this write's records, and the counter and clock
advance by the number of pieces of the split input. -/
theorem write_history {p : List Byte} {st : WriterState} {n : Nat}
    {st' : WriterState} (h : write p st = some (n, st')) :
    st'.history <:+ st.history ++ recsOfParts st.num st.clock (split p) ∧
    st'.num = st.num + (split p).length ∧
    st'.clock = st.clock + (split p).length := by
  unfold write at h
  cases hw : writeParts p.length (split p) st with
  | none => rw [hw] at h; cases h
  | some st1 =>
      rw [hw] at h
      cases h
      exact writeParts_history p.length (split p) st _ hw

/-- `flush` only clears the pending batch. -/
theorem flushW_fields (st : WriterState) :
    (flushW st).1 = { st with pending := ([] : List Line) } := by
  by_cases hp : st.pending = ([] : List Line) <;> simp [flushW, hp]

/-- How far one operation advances the sequence counter and clock. -/
def opCount : LOp → Nat
  | .write p => (split p).length
  | .flush => 0
  | .close => 0

/-- Unfolding the record list one operation at a time. -/
theorem recsOfOps_cons (num clock : Nat) (op : LOp) (rest : List LOp) :
    recsOfOps num clock (op :: rest) =
      recsOfOps num clock [op]
        ++ recsOfOps (num + opCount op) (clock + opCount op) rest := by
  cases op <;> simp [recsOfOps, opCount]

/-- One operation keeps the history a suffix of the old history
followed by the operation's records, and advances the counters by its
piece count. -/
theorem stepOp_history {st : WriterState} {op : LOp} {st1 : WriterState}
    {evs1 : List Ev} (hs : stepOp st op = some (st1, evs1)) :
    st1.history <:+ st.history ++ recsOfOps st.num st.clock [op] ∧
    st1.num = st.num + opCount op ∧ st1.clock = st.clock + opCount op := by
  cases op with
  | write p =>
      simp only [stepOp] at hs
      cases hw : write p st with
      | none => rw [hw] at hs; cases hs
      | some r =>
          obtain ⟨n, stw⟩ := r
          rw [hw] at hs
          cases hs
          obtain ⟨h1, h2, h3⟩ := write_history hw
          refine ⟨?_, by simpa [opCount] using h2, by simpa [opCount] using h3⟩
          simpa [recsOfOps] using h1
  | flush =>
      simp only [stepOp] at hs
      injection hs with h2
      have h1 : st1 = (flushW st).1 := by rw [h2]
      subst h1
      rw [flushW_fields]
      exact ⟨by simp [recsOfOps], by simp [opCount], by simp [opCount]⟩
  | close =>
      simp only [stepOp] at hs
      injection hs with h2
      have h1 : st1 = (closeW st).1 := by rw [h2]
      subst h1
      obtain ⟨hh, hn, hc, _, _, _⟩ := closeW_fields st
      exact ⟨by rw [hh]; simp [recsOfOps],
             by rw [hn]; simp [opCount], by rw [hc]; simp [opCount]⟩

/-- Across any operation sequence, the final history is a suffix of the
initial history followed by every record the sequence creates. -/
theorem runOps_history :
    ∀ (ops : List LOp) (st st' : WriterState) (evs : List Ev),
      runOps st ops = some (st', evs) →
      st'.history <:+ st.history ++ recsOfOps st.num st.clock ops := by
  intro ops
  induction ops with
  | nil =>
      intro st st' evs h
      simp [runOps] at h
      obtain ⟨rfl, rfl⟩ := h
      simp [recsOfOps]
  | cons op rest ih =>
      intro st st' evs h
      simp only [runOps] at h
      cases hs : stepOp st op with
      | none => rw [hs] at h; cases h
      | some r =>
          obtain ⟨st1, evs1⟩ := r
          simp only [hs] at h
          cases hr : runOps st1 rest with
          | none => rw [hr] at h; cases h
          | some r2 =>
              obtain ⟨st2, evs2⟩ := r2
              simp only [hr] at h
              cases h
              obtain ⟨h1, hn, hc⟩ := stepOp_history hs
              have hrec := ih st1 _ _ hr
              rw [hn, hc] at hrec
              rw [recsOfOps_cons]
              have h3 := suffix_append_same
                (recsOfOps (st.num + opCount op) (st.clock + opCount op) rest) h1
              have h4 := hrec.trans h3
              simpa [List.append_assoc] using h4

end Livelog

/-- C1 amended: eviction removes the oldest records from the history
itself, so after any successful operation sequence the history is a
suffix of the records ever written (every record since the last
eviction), and Close's upload carries exactly the records remaining in
history — all records ever written only when no eviction occurred. -/
theorem history_suffix_upload (L : Int) (ops : List Livelog.LOp)
    (st' : Livelog.WriterState) (evs : List Livelog.Ev)
    (h : Livelog.runOps (Livelog.mkWriter L) ops = some (st', evs)) :
    st'.history <:+ Livelog.recsOfOps 0 0 ops ∧
    Livelog.Ev.upload st'.history ∈ (Livelog.closeW st').2 ∧
    ∀ ls, Livelog.Ev.upload ls ∈ (Livelog.closeW st').2 → ls = st'.history := by
  have hs := Livelog.runOps_history ops (Livelog.mkWriter L) st' evs h
  obtain ⟨_, _, _, _, h5, h6⟩ := closeW_fields st'
  exact ⟨by simpa [Livelog.mkWriter] using hs, h5, h6⟩

namespace Livelog

/-- The writer state after writing "hi" on a fresh writer with byte
limit 5. -/
def stHi : WriterState :=
  { num := 1, size := 2, limit := 5,
    pending := [⟨0, [104, 105], 0, "info"⟩],
    history := [⟨0, [104, 105], 0, "info"⟩],
    closed := false, clock := 1 }

end Livelog

/-- Witness for the amended C1 at a concrete one-write trace. -/
theorem history_suffix_upload_witness :
    Livelog.stHi.history <:+
      Livelog.recsOfOps 0 0 [Livelog.LOp.write [104, 105]] ∧
    Livelog.Ev.upload Livelog.stHi.history ∈ (Livelog.closeW Livelog.stHi).2 ∧
    (∀ ls, Livelog.Ev.upload ls ∈ (Livelog.closeW Livelog.stHi).2 →
        ls = Livelog.stHi.history) :=
  history_suffix_upload 5 [Livelog.LOp.write [104, 105]] Livelog.stHi []
    (by decide)

namespace Livelog

/-- The pieces of `splitAfterNL` concatenate back to the input. -/
theorem splitAfterNL_join : ∀ (s acc : List Byte),
    (splitAfterNL acc s).foldr (· ++ ·) [] = acc ++ s := by
  intro s
  induction s with
  | nil => intro acc; simp [splitAfterNL]
  | cons c rest ih =>
      intro acc
      by_cases hc : c = nl
      · subst hc; simp [splitAfterNL, ih]
      · simp [splitAfterNL, hc, ih]

/-- A member of a list of pieces is no longer than their
concatenation. -/
theorem length_le_join {l : List Byte} :
    ∀ {ps : List (List Byte)}, l ∈ ps →
      l.length ≤ (ps.foldr (· ++ ·) []).length := by
  intro ps
  induction ps with
  | nil => intro h; cases h
  | cons a t ih =>
      intro h
      rcases List.mem_cons.mp h with rfl | hm
      · simp [List.length_append]
      · have := ih hm
        simp only [List.foldr_cons, List.length_append]
        omega

/-- Every piece of the split input is no longer than the input. -/
theorem split_part_length {part p : List Byte} (h : part ∈ split p) :
    part.length ≤ p.length := by
  unfold split at h
  by_cases hc : nl ∈ trimSuffixNL p
  · rw [if_pos hc] at h
    have h2 := length_le_join h
    rwa [splitAfterNL_join p []] at h2
  · rw [if_neg hc] at h
    simp at h
    subst h
    exact Nat.le_refl _

/-- The writer's invariant: the configured limit is nonnegative and
recorded; the tracked size equals the history's total message length;
the pending batch's total never exceeds the limit; and while streaming
has not stopped, the pending batch is no larger than the history. -/
def Inv (L : Int) (st : WriterState) : Prop :=
  st.limit = L ∧ 0 ≤ L ∧ st.size = (linesTotal st.history : Int) ∧
  (pendingTotal st : Int) ≤ L ∧
  (st.closed = false → pendingTotal st ≤ linesTotal st.history)

/-- The fresh writer satisfies the invariant. -/
theorem mkWriter_inv (L : Int) (hL : 0 ≤ L) : Inv L (mkWriter L) :=
  ⟨rfl, hL, by simp [mkWriter, linesTotal],
   by simpa [mkWriter, pendingTotal, linesTotal] using hL,
   fun _ => by simp [mkWriter, pendingTotal, linesTotal]⟩

/-- One per-line iteration preserves the invariant, provided the line
is no longer than the write's whole input. -/
theorem writeLine_inv {L : Int} {pLen : Nat} {part : List Byte}
    {st st' : WriterState} (hI : Inv L st) (hpart : part.length ≤ pLen)
    (hw : writeLine pLen part st = some st') : Inv L st' := by
  obtain ⟨hlim, hL, hsz, hpend, hcl⟩ := hI
  cases he : evict pLen st.limit st.size st.history st.closed with
  | none => rw [writeLine_none part he] at hw; cases hw
  | some r =>
      obtain ⟨s1, h1, c1⟩ := r
      rw [writeLine_eq part he] at hw
      cases hw
      obtain ⟨he1, he2, he3, he4⟩ :=
        evict_spec pLen st.limit st.history st.size st.closed s1 h1 c1 he
      have hs1 : s1 = (linesTotal h1 : Int) := he4 hsz
      rw [hlim] at he1
      refine ⟨hlim, hL, ?_, ?_, ?_⟩
      · show s1 + (part.length : Int) = _
        rw [linesTotal_append, linesTotal_cons, linesTotal_nil, hs1]
        push_cast
        omega
      · cases c1 with
        | true => simpa [pendingTotal] using hpend
        | false =>
            obtain ⟨hseq, hheq, hc0⟩ := he3 rfl
            have hple := hcl hc0
            rw [hseq, hsz] at he1
            simp only [pendingTotal, Bool.false_eq_true, if_false,
              linesTotal_append, linesTotal_cons, linesTotal_nil] at hple hpend ⊢
            push_cast at he1 ⊢
            omega
      · show (c1 = false) → _
        intro hc1
        subst hc1
        obtain ⟨hseq, hheq, hc0⟩ := he3 rfl
        have hple := hcl hc0
        subst hheq
        simp only [pendingTotal, historyTotal, Bool.false_eq_true, if_false,
          linesTotal_append, linesTotal_cons, linesTotal_nil] at hple ⊢
        omega

/-- The per-line loop preserves the invariant when every piece fits the
input's length. -/
theorem writeParts_inv {L : Int} (pLen : Nat) :
    ∀ (parts : List (List Byte)) (st st' : WriterState), Inv L st →
      (∀ x ∈ parts, x.length ≤ pLen) →
      writeParts pLen parts st = some st' → Inv L st' := by
  intro parts
  induction parts with
  | nil =>
      intro st st' hI _ h
      simp [writeParts] at h
      subst h
      exact hI
  | cons part rest ih =>
      intro st st' hI hx h
      simp only [writeParts] at h
      cases hw : writeLine pLen part st with
      | none => rw [hw] at h; cases h
      | some st1 =>
          simp only [hw] at h
          exact ih st1 st' (writeLine_inv hI (hx part (by simp)) hw)
            (fun x hxm => hx x (by simp [hxm])) h

/-- `Write` preserves the invariant. -/
theorem write_inv {L : Int} {p : List Byte} {st : WriterState} {n : Nat}
    {st' : WriterState} (hI : Inv L st) (h : write p st = some (n, st')) :
    Inv L st' := by
  unfold write at h
  cases hw : writeParts p.length (split p) st with
  | none => rw [hw] at h; cases h
  | some st1 =>
      rw [hw] at h
      cases h
      exact writeParts_inv p.length (split p) st _ hI
        (fun x hx => split_part_length hx) hw

/-- `flush` preserves the invariant. -/
theorem flushW_inv {L : Int} {st : WriterState} (hI : Inv L st) :
    Inv L (flushW st).1 := by
  obtain ⟨hlim, hL, hsz, hpend, hcl⟩ := hI
  rw [flushW_fields]
  exact ⟨hlim, hL, hsz, by simpa [pendingTotal, linesTotal] using hL,
    fun _ => by simp [pendingTotal, linesTotal]⟩

/-- `Close` preserves the invariant. -/
theorem closeW_inv {L : Int} {st : WriterState} (hI : Inv L st) :
    Inv L (closeW st).1 := by
  obtain ⟨hlim, hL, hsz, hpend, hcl⟩ := hI
  by_cases hc : st.closed
  · rw [closeW_closed hc]
    exact ⟨hlim, hL, hsz, hpend, hcl⟩
  · have h1 : (closeW st).1 = { st with closed := true, pending := ([] : List Line) } := by
      by_cases hp : st.pending = ([] : List Line) <;>
        simp [closeW, stopW, flushW, hc, hp]
    rw [h1]
    refine ⟨hlim, hL, hsz, ?_, ?_⟩
    · simpa [pendingTotal, linesTotal] using hL
    · intro hfalse
      simp at hfalse

/-- A single writer operation preserves the invariant. -/
theorem stepOp_inv {L : Int} {st : WriterState} {op : LOp}
    {st1 : WriterState} {evs1 : List Ev} (hI : Inv L st)
    (hs : stepOp st op = some (st1, evs1)) : Inv L st1 := by
  cases op with
  | write p =>
      simp only [stepOp] at hs
      cases hw : write p st with
      | none => rw [hw] at hs; cases hs
      | some r =>
          obtain ⟨n, stw⟩ := r
          rw [hw] at hs
          cases hs
          exact write_inv hI hw
  | flush =>
      simp only [stepOp] at hs
      injection hs with h2
      have h1 : st1 = (flushW st).1 := by rw [h2]
      subst h1
      exact flushW_inv hI
  | close =>
      simp only [stepOp] at hs
      injection hs with h2
      have h1 : st1 = (closeW st).1 := by rw [h2]
      subst h1
      exact closeW_inv hI

/-- Any successful operation sequence preserves the invariant. -/
theorem runOps_inv {L : Int} :
    ∀ (ops : List LOp) (st st' : WriterState) (evs : List Ev), Inv L st →
      runOps st ops = some (st', evs) → Inv L st' := by
  intro ops
  induction ops with
  | nil =>
      intro st st' evs hI h
      simp [runOps] at h
      obtain ⟨rfl, rfl⟩ := h
      exact hI
  | cons op rest ih =>
      intro st st' evs hI h
      simp only [runOps] at h
      cases hs : stepOp st op with
      | none => rw [hs] at h; cases h
      | some r =>
          obtain ⟨st1, evs1⟩ := r
          simp only [hs] at h
          cases hr : runOps st1 rest with
          | none => rw [hr] at h; cases h
          | some r2 =>
              obtain ⟨st2, evs2⟩ := r2
              simp only [hr] at h
              cases h
              exact ih st1 _ _ (stepOp_inv hI hs) hr

end Livelog

/-- C2 amended: the eviction loop runs while the tracked size plus the
entire input block's length (not the single line's) would exceed the
limit, dropping oldest history records and subtracting their lengths —
the size always equals the history's total message length — and
consequently, along every successful write sequence against a
nonnegative limit L, the pending batch's total message size never
exceeds L. -/
theorem pending_total_bounded (L : Int) (hL : 0 ≤ L) (ops : List Livelog.LOp)
    (st' : Livelog.WriterState) (evs : List Livelog.Ev)
    (h : Livelog.runOps (Livelog.mkWriter L) ops = some (st', evs)) :
    (Livelog.pendingTotal st' : Int) ≤ L ∧
    st'.size = (Livelog.linesTotal st'.history : Int) := by
  have hI := Livelog.runOps_inv ops (Livelog.mkWriter L) st' evs
    (Livelog.mkWriter_inv L hL) h
  exact ⟨hI.2.2.2.1, hI.2.2.1⟩

namespace Livelog

/-- The writer state after writing "ab" then "cd" on a fresh writer
with byte limit 3: the second write evicted the first record and
stopped streaming. -/
def stAbCd : WriterState :=
  { num := 2, size := 2, limit := 3,
    pending := [⟨0, [97, 98], 0, "info"⟩],
    history := [⟨1, [99, 100], 1, "info"⟩],
    closed := true, clock := 2 }

end Livelog

/-- Witness for the amended C2 at a concrete two-write trace whose
cumulative length exceeds the limit. -/
theorem pending_total_bounded_witness :
    (Livelog.pendingTotal Livelog.stAbCd : Int) ≤ 3 ∧
    Livelog.stAbCd.size = (Livelog.linesTotal Livelog.stAbCd.history : Int) :=
  pending_total_bounded 3 (by decide)
    [Livelog.LOp.write [97, 98], Livelog.LOp.write [99, 100]]
    Livelog.stAbCd [] (by decide)

namespace Livelog

/-- Cutting after the first newline of a newline-free block followed by
a newline. -/
theorem splitAfterNL_break {a : List Byte} (hna : nl ∉ a) :
    ∀ (acc rest : List Byte),
      splitAfterNL acc (a ++ nl :: rest) =
        (acc ++ a ++ [nl]) :: splitAfterNL [] rest := by
  induction a with
  | nil => intro acc rest; simp [splitAfterNL]
  | cons c a ih =>
      intro acc rest
      have hc : ¬ c = nl := fun hcontra => hna (by simp [hcontra])
      have hna' : nl ∉ a := fun hm => hna (by simp [hm])
      simp only [List.cons_append, splitAfterNL, if_neg hc, List.append_eq]
      rw [ih hna' (acc ++ [c]) rest]
      simp

/-- Splitting a block with two line breaks, the second trailing: the
two lines each keep their line-feed and an empty remainder piece
follows. -/
theorem split_two_breaks {a b : List Byte} (ha : nl ∉ a) (hb : nl ∉ b) :
    split (a ++ nl :: (b ++ [nl])) = [a ++ [nl], b ++ [nl], []] := by
  have hshape : a ++ nl :: (b ++ [nl]) = (a ++ nl :: b) ++ [nl] := by simp
  have htrim : trimSuffixNL (a ++ nl :: (b ++ [nl])) = a ++ nl :: b := by
    unfold trimSuffixNL
    rw [hshape, List.getLast?_concat, if_pos rfl, List.dropLast_concat]
  have hmem : nl ∈ trimSuffixNL (a ++ nl :: (b ++ [nl])) := by
    rw [htrim]; simp
  unfold split
  rw [if_pos hmem, splitAfterNL_break ha, splitAfterNL_break hb []]
  simp [splitAfterNL]

/-- When the tracked size plus the input's length fits the limit, the
eviction loop does nothing. -/
theorem evict_noop {pLen : Nat} {L s : Int} (h : ¬ s + (pLen : Int) > L)
    (hist : List Line) (c : Bool) : evict pLen L s hist c = some (s, hist, c) := by
  cases hist <;> simp [evict, h]

/-- A per-line iteration that evicts nothing. -/
theorem writeLine_noevict {pLen : Nat} (part : List Byte)
    {st : WriterState} (h : ¬ st.size + (pLen : Int) > st.limit) :
    writeLine pLen part st =
      some { num := st.num + 1, size := st.size + (part.length : Int),
             limit := st.limit,
             pending := if st.closed then st.pending
                        else st.pending ++ [⟨st.num, part, st.clock, "info"⟩],
             history := st.history ++ [⟨st.num, part, st.clock, "info"⟩],
             closed := st.closed, clock := st.clock + 1 } :=
  writeLine_eq part (evict_noop h st.history st.closed)

end Livelog

/-- C8 amended: writing a block holding two line breaks (the second
trailing) produces three records with consecutive sequence numbers: the
two lines, each preserving its trailing line-feed, and a final record
with an empty message for the remainder after the trailing line-feed.
Stated for any state with enough remaining budget. -/
theorem write_two_breaks {a b : List Livelog.Byte} (st : Livelog.WriterState)
    (ha : Livelog.nl ∉ a) (hb : Livelog.nl ∉ b)
    (hroom : st.size + 2 * (((a.length + b.length + 2 : Nat)) : Int) ≤ st.limit) :
    Livelog.write (a ++ Livelog.nl :: (b ++ [Livelog.nl])) st =
      some (a.length + b.length + 2,
        { num := st.num + 3,
          size := st.size + ((a.length + b.length + 2 : Nat) : Int),
          limit := st.limit,
          pending := if st.closed then st.pending
                     else st.pending ++
                       [⟨st.num, a ++ [Livelog.nl], st.clock, "info"⟩,
                        ⟨st.num + 1, b ++ [Livelog.nl], st.clock + 1, "info"⟩,
                        ⟨st.num + 2, [], st.clock + 2, "info"⟩],
          history := st.history ++
            [⟨st.num, a ++ [Livelog.nl], st.clock, "info"⟩,
             ⟨st.num + 1, b ++ [Livelog.nl], st.clock + 1, "info"⟩,
             ⟨st.num + 2, [], st.clock + 2, "info"⟩],
          closed := st.closed, clock := st.clock + 3 }) := by
  have hlen : (a ++ Livelog.nl :: (b ++ [Livelog.nl])).length
      = a.length + b.length + 2 := by
    simp
    omega
  have h1 : ¬ st.size + ((a.length + b.length + 2 : Nat) : Int) > st.limit := by
    push_cast at hroom ⊢
    omega
  have h2 : ¬ (st.size + ((a ++ [Livelog.nl]).length : Int))
      + ((a.length + b.length + 2 : Nat) : Int) > st.limit := by
    simp only [List.length_append, List.length_cons, List.length_nil]
    push_cast at hroom ⊢
    omega
  have h3 : ¬ ((st.size + ((a ++ [Livelog.nl]).length : Int))
      + ((b ++ [Livelog.nl]).length : Int))
      + ((a.length + b.length + 2 : Nat) : Int) > st.limit := by
    simp only [List.length_append, List.length_cons, List.length_nil]
    push_cast at hroom ⊢
    omega
  unfold Livelog.write
  rw [Livelog.split_two_breaks ha hb, hlen]
  unfold Livelog.writeParts
  rw [Livelog.writeLine_noevict (a ++ [Livelog.nl]) h1]
  unfold Livelog.writeParts
  rw [Livelog.writeLine_noevict (b ++ [Livelog.nl]) h2]
  unfold Livelog.writeParts
  rw [Livelog.writeLine_noevict [] h3]
  unfold Livelog.writeParts
  cases hc : st.closed
  · simp [hc, List.append_assoc]
    ring
  · simp [hc, List.append_assoc]
    ring

/-- Witness for the amended C8: writing "x\ny\n" on a fresh writer with
byte limit 100 produces the three records. -/
theorem write_two_breaks_witness :
    Livelog.write [120, Livelog.nl, 121, Livelog.nl] (Livelog.mkWriter 100) =
      some (4,
        { num := 3, size := 4, limit := 100,
          pending := [⟨0, [120, Livelog.nl], 0, "info"⟩,
                      ⟨1, [121, Livelog.nl], 1, "info"⟩,
                      ⟨2, [], 2, "info"⟩],
          history := [⟨0, [120, Livelog.nl], 0, "info"⟩,
                      ⟨1, [121, Livelog.nl], 1, "info"⟩,
                      ⟨2, [], 2, "info"⟩],
          closed := false, clock := 3 }) := by
  have h := write_two_breaks (a := [120]) (b := [121]) (Livelog.mkWriter 100)
    (by decide) (by decide) (by decide)
  simpa using h
